import Mathlib

/-!
# Verification of the toolset registry and pagination translator of github-mcp-server

Shallow embedding of the Go sources:
* `pkg/toolsets/toolsets.go` (the `toolsets` package: `Toolset`,
  `ToolsetGroup`, enable/introspection operations, the
  `ToolsetDoesNotExistError` error type);
* `pkg/github/dynamic_tools.go` (the `enable_toolset` control capability);
* `pkg/github/server.go` (pagination parameter translation to GraphQL form).

Go maps from string keys are embedded as association lists
`List (String × _)` with unique keys maintained by an overwrite-on-insert
operation; Go's in-place pointer mutation is embedded as explicit state
passing (each operation returns the updated group); a Go `panic` during
toolset construction is embedded as `Option.none`; a Go `error` return is
embedded as `Option GoError` (`none` = nil) or `Except`.
-/

namespace GithubMcp

/-- The subset of `mcp.ToolAnnotations` the toolsets package reads:
`ReadOnlyHint` is the declared safety flag (`true` = read-only capability,
`false` = mutating capability). -/
structure ToolAnnotations where
  readOnlyHint : Bool
deriving DecidableEq, Repr

/-- The subset of `mcp.Tool` the toolsets package reads: the unique name,
the human description and the safety annotations.  The input schema and
wire-protocol fields play no part in any claim and are omitted. -/
structure Tool where
  name : String
  description : String
  annotations : ToolAnnotations
deriving DecidableEq, Repr

/-- Go `toolsets.ServerTool` pairs an `mcp.Tool` with a registration closure
(`RegisterFunc`, which calls `mcp.AddTool` on a server with this very
tool).  The closure's effect is represented by the tool itself: binding a
`ServerTool` into a session table inserts its `Tool` keyed by name. -/
structure ServerTool where
  tool : Tool
deriving DecidableEq, Repr

/-- A live session's invocation table: capability name ↦ bound tool. -/
abbrev SessionTable : Type := List (String × Tool)

/-- Go `toolsets.Toolset` (from `pkg/toolsets/toolsets.go`): a named group of
read and write tools with an `Enabled` flag and a `readOnly` lockdown
flag.  The `resourceTemplates` and `prompts` fields are omitted: no claim
concerns them. -/
structure Toolset where
  name : String
  description : String
  enabled : Bool
  readOnly : Bool
  writeTools : List ServerTool
  readTools : List ServerTool
deriving DecidableEq, Repr

/-- Go `toolsets.NewToolset`: a fresh toolset starts disabled and unlocked
with empty tool lists. -/
def NewToolset (name description : String) : Toolset :=
  { name := name
    description := description
    enabled := false
    readOnly := false
    writeTools := []
    readTools := [] }

namespace Toolset

/-- Go `Toolset.GetActiveTools`: empty when disabled; read tools only under
read-only lockdown; otherwise read tools followed by write tools. -/
def GetActiveTools (t : Toolset) : List ServerTool :=
  if t.enabled then
    if t.readOnly then t.readTools
    else t.readTools ++ t.writeTools
  else []

/-- Go `Toolset.GetAvailableTools`: same filtering by lockdown but ignoring
`enabled`. -/
def GetAvailableTools (t : Toolset) : List ServerTool :=
  if t.readOnly then t.readTools
  else t.readTools ++ t.writeTools

/-- Go `Toolset.SetReadOnly`. -/
def SetReadOnly (t : Toolset) : Toolset :=
  { t with readOnly := true }

/-- Go `Toolset.AddWriteTools`: panics (`none`) if any tool is annotated
read-only; otherwise appends, except that on a read-only toolset the
append is silently skipped. -/
def AddWriteTools (t : Toolset) (tools : List ServerTool) : Option Toolset :=
  if tools.any (fun st => st.tool.annotations.readOnlyHint) then none
  else if t.readOnly then some t
  else some { t with writeTools := t.writeTools ++ tools }

/-- Go `Toolset.AddReadTools`: panics (`none`) if any tool is not annotated
read-only; otherwise appends to the read list. -/
def AddReadTools (t : Toolset) (tools : List ServerTool) : Option Toolset :=
  if tools.any (fun st => !st.tool.annotations.readOnlyHint) then none
  else some { t with readTools := t.readTools ++ tools }

end Toolset

/-- The read/write safety contract of a toolset: every read tool is
annotated read-only and every write tool is annotated mutating. -/
def WellFormed (t : Toolset) : Prop :=
  (∀ st ∈ t.readTools, st.tool.annotations.readOnlyHint = true) ∧
  (∀ st ∈ t.writeTools, st.tool.annotations.readOnlyHint = false)

/-- Go `toolsets.ToolsetDoesNotExistError`: the structured not-found error. -/
structure ToolsetDoesNotExistError where
  name : String
deriving DecidableEq, Repr

/-- The Go `error` values the toolsets package can see: the structured
not-found error, or any other error (identified by its message). -/
inductive GoError where
  | toolsetDoesNotExist (e : ToolsetDoesNotExistError)
  | other (message : String)
deriving DecidableEq, Repr

/-- Go `(*ToolsetDoesNotExistError).Error()`. -/
def ToolsetDoesNotExistError.errorMessage (e : ToolsetDoesNotExistError) : String :=
  "toolset " ++ e.name ++ " does not exist"

/-- Go `(*ToolsetDoesNotExistError).Is(target)`: nil target never matches;
any `*ToolsetDoesNotExistError` target matches regardless of its `Name`
field; any other error value does not match.  This is the hook Go's
`errors.Is` uses, so matching is by error kind, not by message text. -/
def ToolsetDoesNotExistError.IsTarget (_e : ToolsetDoesNotExistError)
    (target : Option GoError) : Bool :=
  match target with
  | none => false
  | some (.toolsetDoesNotExist _) => true
  | some (.other _) => false

/-- Go `toolsets.NewToolsetDoesNotExistError`. -/
def NewToolsetDoesNotExistError (name : String) : GoError :=
  .toolsetDoesNotExist ⟨name⟩

/-- Lookup in the association-list embedding of a Go `map[string]*Toolset`. -/
def lookupTS : List (String × Toolset) → String → Option Toolset
  | [], _ => none
  | p :: ps, k => if p.1 = k then some p.2 else lookupTS ps k

/-- Overwrite-or-add insertion, the embedding of `m[key] = value`. -/
def insertTS (l : List (String × Toolset)) (k : String) (v : Toolset) :
    List (String × Toolset) :=
  if (lookupTS l k).isSome then
    l.map (fun p => if p.1 = k then (p.1, v) else p)
  else l ++ [(k, v)]

/-- In-place update setting the `enabled` flag of the entry keyed `k`,
the embedding of `toolset.Enabled = true` through the map's pointer. -/
def mapEnable (k : String) : List (String × Toolset) → List (String × Toolset)
  | [] => []
  | p :: ps =>
    (if p.1 = k then (p.1, { p.2 with enabled := true }) else p) :: mapEnable k ps

/-- Go `toolsets.ToolsetGroup`: the registry of toolsets.  The
`ToolHandlerWrapper` field of the older variant is omitted: no claim
concerns it. -/
structure ToolsetGroup where
  toolsets : List (String × Toolset)
  everythingOn : Bool
  readOnly : Bool
deriving DecidableEq, Repr

/-- Go `toolsets.NewToolsetGroup`. -/
def NewToolsetGroup (readOnly : Bool) : ToolsetGroup :=
  { toolsets := [], everythingOn := false, readOnly := readOnly }

namespace ToolsetGroup

/-- Go `ToolsetGroup.AddToolset`: a read-only group forces the inserted
toolset read-only. -/
def AddToolset (tg : ToolsetGroup) (ts : Toolset) : ToolsetGroup :=
  let ts := if tg.readOnly then ts.SetReadOnly else ts
  { tg with toolsets := insertTS tg.toolsets ts.name ts }

/-- Go `ToolsetGroup.IsEnabled`: unconditionally true under the
`everythingOn` override; otherwise the named toolset's flag; false for an
unknown name. -/
def IsEnabled (tg : ToolsetGroup) (name : String) : Bool :=
  if tg.everythingOn then true
  else
    match lookupTS tg.toolsets name with
    | none => false
    | some feature => feature.enabled

/-- Go `ToolsetGroup.EnableToolset`: returns the not-found error (state
unchanged) for an unknown name; otherwise sets the toolset's `Enabled`
flag.  The pair is (updated receiver, returned error). -/
def EnableToolset (tg : ToolsetGroup) (name : String) :
    ToolsetGroup × Option GoError :=
  match lookupTS tg.toolsets name with
  | none => (tg, some (NewToolsetDoesNotExistError name))
  | some _ => ({ tg with toolsets := mapEnable name tg.toolsets }, none)

/-- The first loop of `ToolsetGroup.EnableToolsets`: scan the names in
order; the literal `"all"` sets `everythingOn` and breaks; any other name
is enabled individually, an error being propagated only when
`errorOnUnknown` is set. -/
def enableLoop (tg : ToolsetGroup) : List String → Bool → ToolsetGroup × Option GoError
  | [], _ => (tg, none)
  | n :: ns, errorOnUnknown =>
    if n = "all" then ({ tg with everythingOn := true }, none)
    else
      match EnableToolset tg n with
      | (tg2, some e) =>
        if errorOnUnknown then (tg2, some e)
        else enableLoop tg2 ns errorOnUnknown
      | (tg2, none) => enableLoop tg2 ns errorOnUnknown

/-- The second loop of `ToolsetGroup.EnableToolsets`: once `everythingOn`
is set, enable every toolset registered at that moment (iterating the
map's keys), with the same error policy. -/
def enableAllLoop (tg : ToolsetGroup) : List String → Bool → ToolsetGroup × Option GoError
  | [], _ => (tg, none)
  | k :: ks, errorOnUnknown =>
    match EnableToolset tg k with
    | (tg2, some e) =>
      if errorOnUnknown then (tg2, some e)
      else enableAllLoop tg2 ks errorOnUnknown
    | (tg2, none) => enableAllLoop tg2 ks errorOnUnknown

/-- Go `ToolsetGroup.EnableToolsets` with `options.ErrorOnUnknown` passed as
a plain boolean (a nil options pointer defaults it to `false`). -/
def EnableToolsets (tg : ToolsetGroup) (names : List String)
    (errorOnUnknown : Bool) : ToolsetGroup × Option GoError :=
  match enableLoop tg names errorOnUnknown with
  | (tg2, some e) => (tg2, some e)
  | (tg2, none) =>
    if tg2.everythingOn then
      enableAllLoop tg2 (tg2.toolsets.map Prod.fst) errorOnUnknown
    else (tg2, none)

/-- Go `ToolsetGroup.GetToolset`: the toolset, or the not-found error. -/
def GetToolset (tg : ToolsetGroup) (name : String) : Except GoError Toolset :=
  match lookupTS tg.toolsets name with
  | none => .error (NewToolsetDoesNotExistError name)
  | some toolset => .ok toolset

end ToolsetGroup

/-! ## The `enable_toolset` control capability (`pkg/github/dynamic_tools.go`)
composed with the Session Exposure Binder step. -/

/-- An MCP call-tool result as this code produces it: an error result
(`utils.NewToolResultError`) or a text result (`utils.NewToolResultText`). -/
inductive ToolResult where
  | errorResult (message : String)
  | textResult (message : String)
deriving DecidableEq, Repr

/-- Message of the handler's not-found error result. -/
def notFoundMessage (toolsetName : String) : String :=
  s!"Toolset {toolsetName} not found"

/-- Message of the handler's already-enabled success result. -/
def alreadyEnabledMessage (toolsetName : String) : String :=
  s!"Toolset {toolsetName} is already enabled"

/-- Message of the handler's fresh-enable success result. -/
def enabledMessage (toolsetName : String) : String :=
  s!"Toolset {toolsetName} enabled"

/-- Name lookup in a session invocation table. -/
def lookupName : SessionTable → String → Option Tool
  | [], _ => none
  | p :: ps, k => if p.1 = k then some p.2 else lookupName ps k

/-- Modelled from the spec: the live session's invocation table supports
insert-if-absent binding (`bindIncremental`, idempotent with respect to
already-bound names); the table type and this operation live in the
external MCP SDK and the transport glue, which are not under `src/`. -/
def bindIncremental (table : SessionTable) (tools : List ServerTool) : SessionTable :=
  tools.foldl
    (fun tb st =>
      if (lookupName tb st.tool.name).isSome then tb
      else tb ++ [(st.tool.name, st.tool)])
    table

/-- The `EnableToolset` tool handler of `pkg/github/dynamic_tools.go`
(lines 43–60), composed with the binder step.  The branches — unknown
name error result, already-enabled text result, fresh transition setting
`Enabled` and returning the enabled text result — are from the source.
Modelled from the spec: on the fresh transition the Session Exposure
Binder adds the newly enabled toolset's active capabilities into the same
live session's invocation table before the success result is returned
(spec §4.3 runtime re-synchronization); that glue is not under `src/`. -/
def EnableToolsetCapability (tg : ToolsetGroup) (table : SessionTable)
    (toolsetName : String) : ToolsetGroup × SessionTable × ToolResult :=
  match lookupTS tg.toolsets toolsetName with
  | none => (tg, table, .errorResult (notFoundMessage toolsetName))
  | some toolset =>
    if toolset.enabled then
      (tg, table, .textResult (alreadyEnabledMessage toolsetName))
    else
      let tg2 : ToolsetGroup := { tg with toolsets := mapEnable toolsetName tg.toolsets }
      let table2 := bindIncremental table ({ toolset with enabled := true }).GetActiveTools
      (tg2, table2, .textResult (enabledMessage toolsetName))

/-! ## Pagination translation (`pkg/github/server.go`) -/

/-- Go `github.PaginationParams` (offset form): page number, page size, and
an optional cursor carried alongside. -/
structure PaginationParams where
  page : Int
  perPage : Int
  after : String
deriving DecidableEq, Repr

/-- Go `github.CursorPaginationParams` (cursor form). -/
structure CursorPaginationParams where
  perPage : Int
  after : String
deriving DecidableEq, Repr

/-- Go `github.GraphQLPaginationParams`: the normalized cursor form
(`First`, `After` are pointers, hence `Option`). -/
structure GraphQLPaginationParams where
  first : Option Int
  after : Option String
deriving DecidableEq, Repr

/-- The error message for `perPage` above the maximum. -/
def exceedsMaximumMessage (v : Int) : String :=
  s!"perPage value {v} exceeds maximum of 100"

/-- The error message for a negative `perPage`. -/
def cannotBeNegativeMessage (v : Int) : String :=
  s!"perPage value {v} cannot be negative"

/-- Go `CursorPaginationParams.ToGraphQLParams` (server.go lines 374–392):
reject `perPage > 100`, reject `perPage < 0`, otherwise `first = perPage`
and `after` passed through, absent when the input string is empty. -/
def CursorPaginationParams.ToGraphQLParams (p : CursorPaginationParams) :
    Except String GraphQLPaginationParams :=
  if p.perPage > 100 then .error (exceedsMaximumMessage p.perPage)
  else if p.perPage < 0 then .error (cannotBeNegativeMessage p.perPage)
  else
    .ok { first := some p.perPage
          after := if p.after = "" then none else some p.after }

/-- Go `PaginationParams.ToGraphQLParams` (server.go lines 399–409):
converts to `CursorPaginationParams` and delegates. -/
def PaginationParams.ToGraphQLParams (p : PaginationParams) :
    Except String GraphQLPaginationParams :=
  CursorPaginationParams.ToGraphQLParams { perPage := p.perPage, after := p.after }

/-! ## Derived state descriptions used in theorem statements -/

/-- Every toolset of the map marked enabled, keys and order untouched. -/
def enabledAll (l : List (String × Toolset)) : List (String × Toolset) :=
  l.map (fun p => (p.1, { p.2 with enabled := true }))

/-- Toolsets whose key occurs in `ks` marked enabled. -/
def enableIn (ks : List String) (l : List (String × Toolset)) :
    List (String × Toolset) :=
  l.map (fun p => if p.1 ∈ ks then (p.1, { p.2 with enabled := true }) else p)

/-- The registry state after a bulk enable that saw `"all"`: the override
set and every registered toolset enabled. -/
def allEnabledState (tg : ToolsetGroup) : ToolsetGroup :=
  { toolsets := enabledAll tg.toolsets
    everythingOn := true
    readOnly := tg.readOnly }

/-! ## Concrete fixtures used by counterexamples and witnesses -/

/-- A read-only-annotated capability. -/
def toolR : ServerTool :=
  ⟨{ name := "list_issues", description := "List issues", annotations := ⟨true⟩ }⟩

/-- A mutating capability. -/
def toolW : ServerTool :=
  ⟨{ name := "create_issue", description := "Create an issue", annotations := ⟨false⟩ }⟩

/-- A sample toolset holding one read and one write capability, disabled. -/
def tsIssues : Toolset :=
  { name := "issues"
    description := "GitHub Issues related tools"
    enabled := false
    readOnly := false
    writeTools := [toolW]
    readTools := [toolR] }

/-- A registry holding only `tsIssues`, no override, no lockdown. -/
def tgIssues : ToolsetGroup :=
  { toolsets := [("issues", tsIssues)], everythingOn := false, readOnly := false }

/-- A registry with the `everythingOn` override already set. -/
def tgAllOn : ToolsetGroup :=
  { toolsets := [], everythingOn := true, readOnly := false }

/-! ## Association-list lemmas -/

theorem lookupTS_mapEnable (k k' : String) (l : List (String × Toolset)) :
    lookupTS (mapEnable k l) k' =
      (lookupTS l k').map
        (fun ts => if k' = k then { ts with enabled := true } else ts) := by
  induction l with
  | nil => rfl
  | cons p ps ih =>
    by_cases hp : p.1 = k'
    · subst hp
      by_cases hpk : p.1 = k <;> simp [mapEnable, lookupTS, hpk]
    · by_cases hpk : p.1 = k
      · have hkk : ¬k = k' := fun he => hp (by rw [hpk, he])
        simpa [mapEnable, lookupTS, hpk, hp, hkk] using ih
      · simpa [mapEnable, lookupTS, hpk, hp] using ih

theorem lookupTS_mapEnable_self (k : String) (l : List (String × Toolset)) :
    lookupTS (mapEnable k l) k =
      (lookupTS l k).map (fun ts => { ts with enabled := true }) := by
  rw [lookupTS_mapEnable]
  cases lookupTS l k <;> simp

theorem lookupTS_mapEnable_isSome (k k' : String) (l : List (String × Toolset)) :
    (lookupTS (mapEnable k l) k').isSome = (lookupTS l k').isSome := by
  rw [lookupTS_mapEnable]
  cases lookupTS l k' <;> simp

theorem mem_keys_lookupTS_isSome (l : List (String × Toolset)) (k : String)
    (h : k ∈ l.map Prod.fst) : (lookupTS l k).isSome := by
  induction l with
  | nil => simp at h
  | cons p ps ih =>
    by_cases hp : p.1 = k
    · simp [lookupTS, hp]
    · have h2 : k ∈ ps.map Prod.fst := by
        simp only [List.map_cons, List.mem_cons] at h
        rcases h with h1 | h1
        · exact absurd h1.symm hp
        · exact h1
      simpa [lookupTS, hp] using ih h2

theorem lookupTS_append_of_none (l1 l2 : List (String × Toolset)) (k : String)
    (h : lookupTS l1 k = none) : lookupTS (l1 ++ l2) k = lookupTS l2 k := by
  induction l1 with
  | nil => rfl
  | cons p ps ih =>
    by_cases hp : p.1 = k
    · simp [lookupTS, hp] at h
    · simp [lookupTS, hp] at h ⊢
      exact ih h

theorem lookupTS_replace_self (l : List (String × Toolset)) (k : String) (v : Toolset)
    (h : (lookupTS l k).isSome = true) :
    lookupTS (l.map (fun p => if p.1 = k then (p.1, v) else p)) k = some v := by
  induction l with
  | nil => simp [lookupTS] at h
  | cons p ps ih =>
    by_cases hp : p.1 = k
    · simp [lookupTS, hp]
    · simp only [lookupTS, if_neg hp] at h
      simpa [lookupTS, hp] using ih h

theorem lookupTS_insertTS_self (l : List (String × Toolset)) (k : String) (v : Toolset) :
    lookupTS (insertTS l k v) k = some v := by
  unfold insertTS
  by_cases h : (lookupTS l k).isSome
  · rw [if_pos h]
    exact lookupTS_replace_self l k v h
  · rw [if_neg h]
    have hnone : lookupTS l k = none := by
      cases hl : lookupTS l k with
      | none => rfl
      | some ts => rw [hl] at h; simp at h
    rw [lookupTS_append_of_none _ _ _ hnone]
    simp [lookupTS]

/-! ## Lemmas about the bulk-enable state transformations -/

theorem enable_enable (ts : Toolset) :
    ({ ({ ts with enabled := true } : Toolset) with enabled := true } : Toolset) =
      { ts with enabled := true } := rfl

theorem enableIn_nil (l : List (String × Toolset)) : enableIn [] l = l := by
  simp [enableIn]

theorem enableIn_mapEnable (k : String) (ks : List String)
    (l : List (String × Toolset)) :
    enableIn ks (mapEnable k l) = enableIn (k :: ks) l := by
  induction l with
  | nil => rfl
  | cons p ps ih =>
    simp only [mapEnable, enableIn, List.map_cons] at ih ⊢
    refine congrArg₂ List.cons ?_ ih
    by_cases h : p.1 = k
    · by_cases hm : p.1 ∈ ks <;> simp [h, hm]
    · by_cases hm : p.1 ∈ ks <;> simp [h, hm]

theorem enableIn_keys (l : List (String × Toolset)) :
    enableIn (l.map Prod.fst) l = enabledAll l := by
  unfold enableIn enabledAll
  apply List.map_congr_left
  intro p hp
  have : p.1 ∈ l.map Prod.fst := List.mem_map_of_mem _ hp
  simp [this]

theorem enabledAll_mapEnable (k : String) (l : List (String × Toolset)) :
    enabledAll (mapEnable k l) = enabledAll l := by
  induction l with
  | nil => rfl
  | cons p ps ih =>
    simp only [mapEnable, enabledAll, List.map_cons] at ih ⊢
    refine congrArg₂ List.cons ?_ ih
    by_cases h : p.1 = k <;> simp [h]

theorem EnableToolset_of_lookup_some (tg : ToolsetGroup) (k : String) (ts : Toolset)
    (hl : lookupTS tg.toolsets k = some ts) :
    ToolsetGroup.EnableToolset tg k =
      ({ tg with toolsets := mapEnable k tg.toolsets }, none) := by
  unfold ToolsetGroup.EnableToolset
  rw [hl]

theorem EnableToolset_of_lookup_none (tg : ToolsetGroup) (k : String)
    (hl : lookupTS tg.toolsets k = none) :
    ToolsetGroup.EnableToolset tg k = (tg, some (NewToolsetDoesNotExistError k)) := by
  unfold ToolsetGroup.EnableToolset
  rw [hl]

theorem enableLoop_cons (tg : ToolsetGroup) (n : String) (ns : List String) (b : Bool) :
    ToolsetGroup.enableLoop tg (n :: ns) b =
      if n = "all" then ({ tg with everythingOn := true }, none)
      else
        match ToolsetGroup.EnableToolset tg n with
        | (tg2, some e) => if b then (tg2, some e) else ToolsetGroup.enableLoop tg2 ns b
        | (tg2, none) => ToolsetGroup.enableLoop tg2 ns b := rfl

theorem enableAllLoop_cons (tg : ToolsetGroup) (k : String) (ks : List String) (b : Bool) :
    ToolsetGroup.enableAllLoop tg (k :: ks) b =
      match ToolsetGroup.EnableToolset tg k with
      | (tg2, some e) => if b then (tg2, some e) else ToolsetGroup.enableAllLoop tg2 ks b
      | (tg2, none) => ToolsetGroup.enableAllLoop tg2 ks b := rfl

theorem enableAllLoop_spec (ks : List String) (tg : ToolsetGroup) (b : Bool)
    (h : ∀ k ∈ ks, (lookupTS tg.toolsets k).isSome) :
    ToolsetGroup.enableAllLoop tg ks b =
      ({ tg with toolsets := enableIn ks tg.toolsets }, none) := by
  induction ks generalizing tg with
  | nil =>
    rw [enableIn_nil]
    rfl
  | cons k ks ih =>
    have hk := h k (by simp)
    rcases hl : lookupTS tg.toolsets k with _ | ts
    · rw [hl] at hk; simp at hk
    · have htail : ∀ k' ∈ ks,
          (lookupTS ({ tg with toolsets := mapEnable k tg.toolsets } :
            ToolsetGroup).toolsets k').isSome := by
        intro k' hk'
        simpa [lookupTS_mapEnable_isSome] using h k' (by simp [hk'])
      rw [enableAllLoop_cons, EnableToolset_of_lookup_some tg k ts hl]
      show ToolsetGroup.enableAllLoop { tg with toolsets := mapEnable k tg.toolsets } ks b = _
      rw [ih _ htail]
      show ({ tg with toolsets := enableIn ks (mapEnable k tg.toolsets) },
        (none : Option GoError)) = _
      rw [enableIn_mapEnable]

theorem enableLoop_append_all (ns : List String) (tg : ToolsetGroup) :
    ∃ tg2 : ToolsetGroup,
      ToolsetGroup.enableLoop tg (ns ++ ["all"]) false = (tg2, none) ∧
      tg2.everythingOn = true ∧ tg2.readOnly = tg.readOnly ∧
      enabledAll tg2.toolsets = enabledAll tg.toolsets := by
  induction ns generalizing tg with
  | nil =>
    exact ⟨{ tg with everythingOn := true },
      by rw [List.nil_append, enableLoop_cons, if_pos rfl], rfl, rfl, rfl⟩
  | cons n ns ih =>
    by_cases hall : n = "all"
    · refine ⟨{ tg with everythingOn := true }, ?_, rfl, rfl, rfl⟩
      rw [List.cons_append, enableLoop_cons, if_pos hall]
    · rcases hl : lookupTS tg.toolsets n with _ | ts
      · rcases ih tg with ⟨tg2, heq, h1, h2, h3⟩
        refine ⟨tg2, ?_, h1, h2, h3⟩
        rw [List.cons_append, enableLoop_cons, if_neg hall,
          EnableToolset_of_lookup_none tg n hl]
        exact heq
      · rcases ih { tg with toolsets := mapEnable n tg.toolsets } with
          ⟨tg2, heq, h1, h2, h3⟩
        refine ⟨tg2, ?_, h1, h2, ?_⟩
        · rw [List.cons_append, enableLoop_cons, if_neg hall,
            EnableToolset_of_lookup_some tg n ts hl]
          exact heq
        · rw [h3]
          exact enabledAll_mapEnable n tg.toolsets

/-! ## Session-table binding lemmas -/

theorem lookupName_append_of_none (l1 l2 : SessionTable) (k : String)
    (h : lookupName l1 k = none) : lookupName (l1 ++ l2) k = lookupName l2 k := by
  induction l1 with
  | nil => rfl
  | cons p ps ih =>
    by_cases hp : p.1 = k
    · simp [lookupName, hp] at h
    · simp [lookupName, hp] at h ⊢
      exact ih h

theorem bindIncremental_cons (table : SessionTable) (st : ServerTool)
    (sts : List ServerTool) :
    bindIncremental table (st :: sts) =
      bindIncremental
        (if (lookupName table st.tool.name).isSome then table
         else table ++ [(st.tool.name, st.tool)]) sts := rfl

theorem bindIncremental_of_fresh (tools : List ServerTool) (table : SessionTable)
    (hnd : (tools.map (fun st => st.tool.name)).Nodup)
    (hfresh : ∀ st ∈ tools, lookupName table st.tool.name = none) :
    bindIncremental table tools =
      table ++ tools.map (fun st => (st.tool.name, st.tool)) := by
  induction tools generalizing table with
  | nil => simp [bindIncremental]
  | cons st sts ih =>
    have h0 : lookupName table st.tool.name = none := hfresh st (by simp)
    have hnd2 : (sts.map (fun s => s.tool.name)).Nodup := by
      rw [List.map_cons, List.nodup_cons] at hnd
      exact hnd.2
    have hhead : st.tool.name ∉ sts.map (fun s => s.tool.name) := by
      rw [List.map_cons, List.nodup_cons] at hnd
      exact hnd.1
    rw [bindIncremental_cons, if_neg (by simp [h0])]
    rw [ih (table ++ [(st.tool.name, st.tool)]) hnd2 ?fresh]
    case fresh =>
      intro s hs
      have hf := hfresh s (by simp [hs])
      have hne : s.tool.name ≠ st.tool.name := by
        intro he
        exact hhead (he ▸ List.mem_map_of_mem _ hs)
      rw [lookupName_append_of_none _ _ _ hf]
      simp [lookupName, Ne.symm hne]
    rw [List.append_assoc]
    rfl

/-! ## Claims -/

/-- C1: the `enable_toolset` control capability, called on a known,
currently disabled toolset, flips that toolset's `enabled` flag from
false to true and binds the toolset's active capabilities into the same
live session's invocation table exactly once (the table is extended by
exactly those bindings) before returning the "enabled" success result; a
second call with the same name returns the distinct "already enabled"
result and changes neither the registry state nor the bound table. -/
theorem enableToolsetCapability_first_and_second (tg : ToolsetGroup)
    (table : SessionTable) (name : String) (ts : Toolset)
    (hlook : lookupTS tg.toolsets name = some ts)
    (hdis : ts.enabled = false)
    (hnd : ((({ ts with enabled := true } : Toolset).GetActiveTools).map
      (fun st => st.tool.name)).Nodup)
    (hfresh : ∀ st ∈ ({ ts with enabled := true } : Toolset).GetActiveTools,
      lookupName table st.tool.name = none) :
    EnableToolsetCapability tg table name =
      ({ tg with toolsets := mapEnable name tg.toolsets },
       table ++ (({ ts with enabled := true } : Toolset).GetActiveTools).map
         (fun st => (st.tool.name, st.tool)),
       .textResult (enabledMessage name)) ∧
    lookupTS (mapEnable name tg.toolsets) name = some { ts with enabled := true } ∧
    EnableToolsetCapability { tg with toolsets := mapEnable name tg.toolsets }
      (table ++ (({ ts with enabled := true } : Toolset).GetActiveTools).map
        (fun st => (st.tool.name, st.tool))) name =
      ({ tg with toolsets := mapEnable name tg.toolsets },
       table ++ (({ ts with enabled := true } : Toolset).GetActiveTools).map
         (fun st => (st.tool.name, st.tool)),
       .textResult (alreadyEnabledMessage name)) := by
  have h2 : lookupTS (mapEnable name tg.toolsets) name =
      some { ts with enabled := true } := by
    rw [lookupTS_mapEnable_self, hlook]
    rfl
  refine ⟨?_, h2, ?_⟩
  · unfold EnableToolsetCapability
    rw [hlook]
    show (if ts.enabled then _ else _) = _
    rw [if_neg (by rw [hdis]; exact Bool.false_ne_true)]
    rw [bindIncremental_of_fresh _ _ hnd hfresh]
  · unfold EnableToolsetCapability
    rw [h2]
    rfl

/-- Witness for C1: a registry with the single disabled toolset
`tsIssues` and an empty session table. -/
theorem enableToolsetCapability_first_and_second_witness :
    EnableToolsetCapability tgIssues [] "issues" =
      ({ tgIssues with toolsets := mapEnable "issues" tgIssues.toolsets },
       [] ++ (({ tsIssues with enabled := true } : Toolset).GetActiveTools).map
         (fun st => (st.tool.name, st.tool)),
       .textResult (enabledMessage "issues")) ∧
    EnableToolsetCapability { tgIssues with toolsets := mapEnable "issues" tgIssues.toolsets }
      ([] ++ (({ tsIssues with enabled := true } : Toolset).GetActiveTools).map
        (fun st => (st.tool.name, st.tool))) "issues" =
      ({ tgIssues with toolsets := mapEnable "issues" tgIssues.toolsets },
       [] ++ (({ tsIssues with enabled := true } : Toolset).GetActiveTools).map
         (fun st => (st.tool.name, st.tool)),
       .textResult (alreadyEnabledMessage "issues")) := by
  have h := enableToolsetCapability_first_and_second tgIssues [] "issues" tsIssues
    (by decide) (by decide) (by decide) (by decide)
  exact ⟨h.1, h.2.2⟩

/-- C2: placing a capability into the wrong safety list is a fatal
construction-time failure (a Go `panic`, embedded as `none`), never a
recoverable runtime error: `AddReadTools` fails exactly when some added
tool is not annotated read-only, `AddWriteTools` fails exactly when some
added tool is annotated read-only; consequently the safety contract —
every read tool read-only, every write tool mutating — holds for a fresh
toolset and is preserved by every successful add. -/
theorem addTools_safety_contract :
    (∀ (t : Toolset) (tools : List ServerTool),
      t.AddReadTools tools = none ↔
        ∃ st ∈ tools, st.tool.annotations.readOnlyHint = false) ∧
    (∀ (t : Toolset) (tools : List ServerTool),
      t.AddWriteTools tools = none ↔
        ∃ st ∈ tools, st.tool.annotations.readOnlyHint = true) ∧
    (∀ name description, WellFormed (NewToolset name description)) ∧
    (∀ (t : Toolset) (tools : List ServerTool) (t' : Toolset),
      WellFormed t → t.AddReadTools tools = some t' → WellFormed t') ∧
    (∀ (t : Toolset) (tools : List ServerTool) (t' : Toolset),
      WellFormed t → t.AddWriteTools tools = some t' → WellFormed t') := by
  refine ⟨?_, ?_, ?_, ?_, ?_⟩
  · intro t tools
    unfold Toolset.AddReadTools
    by_cases h : tools.any (fun st => !st.tool.annotations.readOnlyHint)
    · rw [if_pos h]
      simp only [List.any_eq_true, Bool.not_eq_true'] at h
      exact iff_of_true rfl h
    · rw [if_neg h]
      simp only [List.any_eq_true, Bool.not_eq_true'] at h
      push_neg at h
      refine iff_of_false (by simp) ?_
      rintro ⟨st, hm, hf⟩
      exact absurd hf (h st hm)
  · intro t tools
    unfold Toolset.AddWriteTools
    by_cases h : tools.any (fun st => st.tool.annotations.readOnlyHint)
    · rw [if_pos h]
      simp only [List.any_eq_true] at h
      exact iff_of_true rfl h
    · rw [if_neg h]
      simp only [List.any_eq_true] at h
      push_neg at h
      refine iff_of_false ?_ ?_
      · by_cases hro : t.readOnly <;> simp [hro]
      · rintro ⟨st, hm, hf⟩
        exact absurd hf (h st hm)
  · intro name description
    exact ⟨by intro st h; simp [NewToolset] at h, by intro st h; simp [NewToolset] at h⟩
  · intro t tools t' hwf hadd
    unfold Toolset.AddReadTools at hadd
    by_cases h : tools.any (fun st => !st.tool.annotations.readOnlyHint)
    · rw [if_pos h] at hadd
      cases hadd
    · rw [if_neg h] at hadd
      simp only [List.any_eq_true, Bool.not_eq_true'] at h
      push_neg at h
      obtain rfl : ({ t with readTools := t.readTools ++ tools } : Toolset) = t' :=
        Option.some.inj hadd
      refine ⟨?_, hwf.2⟩
      intro st hst
      rcases List.mem_append.mp hst with h1 | h1
      · exact hwf.1 st h1
      · have := h st h1
        revert this
        cases st.tool.annotations.readOnlyHint <;> simp
  · intro t tools t' hwf hadd
    unfold Toolset.AddWriteTools at hadd
    by_cases h : tools.any (fun st => st.tool.annotations.readOnlyHint)
    · rw [if_pos h] at hadd
      cases hadd
    · rw [if_neg h] at hadd
      simp only [List.any_eq_true] at h
      push_neg at h
      by_cases hro : t.readOnly = true
      · rw [if_pos hro] at hadd
        obtain rfl : t = t' := Option.some.inj hadd
        exact hwf
      · rw [if_neg hro] at hadd
        obtain rfl : ({ t with writeTools := t.writeTools ++ tools } : Toolset) = t' :=
          Option.some.inj hadd
        refine ⟨hwf.1, ?_⟩
        intro st hst
        rcases List.mem_append.mp hst with h1 | h1
        · exact hwf.2 st h1
        · have := h st h1
          revert this
          cases st.tool.annotations.readOnlyHint <;> simp

/-- Witness for C2: adding the mutating tool `toolW` to a read list
panics, adding the read-only tool `toolR` to a write list panics, a
fresh toolset is well-formed, and a successful add preserves the
contract. -/
theorem addTools_safety_contract_witness :
    tsIssues.AddReadTools [toolW] = none ∧
    tsIssues.AddWriteTools [toolR] = none ∧
    WellFormed (NewToolset "issues" "GitHub Issues related tools") ∧
    WellFormed { NewToolset "issues" "GitHub Issues related tools" with
      readTools := [toolR] } := by
  refine ⟨?_, ?_, addTools_safety_contract.2.2.1 _ _, ?_⟩
  · exact (addTools_safety_contract.1 tsIssues [toolW]).mpr
      ⟨toolW, by simp, by decide⟩
  · exact (addTools_safety_contract.2.1 tsIssues [toolR]).mpr
      ⟨toolR, by simp, by decide⟩
  · exact addTools_safety_contract.2.2.2.1
      (NewToolset "issues" "GitHub Issues related tools") [toolR] _
      (addTools_safety_contract.2.2.1 _ _) (by decide)

/-- C3: a toolset under read-only lockdown — whether set directly or
forced by insertion into a registry whose global lockdown is on — never
exposes a mutating capability through `GetActiveTools` or
`GetAvailableTools` (given the safety contract on its read list, which
construction enforces), regardless of `enabled`; and `AddWriteTools` on
such a toolset appends nothing. -/
theorem readOnly_excludes_mutating (t : Toolset)
    (hro : t.readOnly = true)
    (hwf : ∀ st ∈ t.readTools, st.tool.annotations.readOnlyHint = true) :
    (∀ st ∈ t.GetActiveTools, st.tool.annotations.readOnlyHint = true) ∧
    (∀ st ∈ t.GetAvailableTools, st.tool.annotations.readOnlyHint = true) ∧
    (∀ (tools : List ServerTool) (t' : Toolset),
      t.AddWriteTools tools = some t' → t' = t) ∧
    (∀ (tg : ToolsetGroup) (ts : Toolset), tg.readOnly = true →
      lookupTS (tg.AddToolset ts).toolsets ts.name = some ts.SetReadOnly) := by
  refine ⟨?_, ?_, ?_, ?_⟩
  · intro st hst
    unfold Toolset.GetActiveTools at hst
    by_cases he : t.enabled = true
    · rw [if_pos he, if_pos hro] at hst
      exact hwf st hst
    · rw [if_neg he] at hst
      cases hst
  · intro st hst
    unfold Toolset.GetAvailableTools at hst
    rw [if_pos hro] at hst
    exact hwf st hst
  · intro tools t' hadd
    unfold Toolset.AddWriteTools at hadd
    by_cases h : tools.any (fun st => st.tool.annotations.readOnlyHint)
    · rw [if_pos h] at hadd
      cases hadd
    · rw [if_neg h, if_pos hro] at hadd
      exact (Option.some.inj hadd).symm
  · intro tg ts hg
    unfold ToolsetGroup.AddToolset
    rw [if_pos hg]
    exact lookupTS_insertTS_self tg.toolsets ts.SetReadOnly.name ts.SetReadOnly

/-- Witness for C3: the locked-down variant of `tsIssues` and a
read-only registry. -/
theorem readOnly_excludes_mutating_witness :
    (∀ st ∈ tsIssues.SetReadOnly.GetActiveTools,
      st.tool.annotations.readOnlyHint = true) ∧
    (∀ st ∈ tsIssues.SetReadOnly.GetAvailableTools,
      st.tool.annotations.readOnlyHint = true) ∧
    lookupTS ((NewToolsetGroup true).AddToolset tsIssues).toolsets "issues" =
      some tsIssues.SetReadOnly := by
  have h := readOnly_excludes_mutating tsIssues.SetReadOnly (by decide) (by decide)
  exact ⟨h.1, h.2.1, h.2.2.2 (NewToolsetGroup true) tsIssues rfl⟩

/-- C10: a toolset whose own `Enabled` flag is false has no active
capabilities even when the registry's `everythingOn` override is set: a
toolset added to the registry after the override was turned on is
reported enabled by `IsEnabled` yet `GetActiveTools` on its stored state
is empty. -/
theorem everythingOn_override_not_active (t : Toolset) (tg : ToolsetGroup)
    (ts : Toolset) (ht : t.enabled = false) (hg : tg.everythingOn = true)
    (hts : ts.enabled = false) :
    t.GetActiveTools = [] ∧
    (tg.AddToolset ts).IsEnabled ts.name = true ∧
    (∀ ts', lookupTS (tg.AddToolset ts).toolsets ts.name = some ts' →
      ts'.GetActiveTools = []) := by
  refine ⟨?_, ?_, ?_⟩
  · unfold Toolset.GetActiveTools
    rw [if_neg (by rw [ht]; exact Bool.false_ne_true)]
  · unfold ToolsetGroup.IsEnabled ToolsetGroup.AddToolset
    rw [if_pos (by exact hg)]
  · intro ts' hl
    by_cases hro : tg.readOnly = true
    · have hv : lookupTS (tg.AddToolset ts).toolsets ts.name = some ts.SetReadOnly := by
        unfold ToolsetGroup.AddToolset
        rw [if_pos hro]
        exact lookupTS_insertTS_self tg.toolsets ts.SetReadOnly.name ts.SetReadOnly
      rw [hv] at hl
      obtain rfl : ts.SetReadOnly = ts' := Option.some.inj hl
      unfold Toolset.GetActiveTools
      rw [if_neg (by simp [Toolset.SetReadOnly, hts])]
    · have hv : lookupTS (tg.AddToolset ts).toolsets ts.name = some ts := by
        unfold ToolsetGroup.AddToolset
        rw [if_neg hro]
        exact lookupTS_insertTS_self tg.toolsets ts.name ts
      rw [hv] at hl
      obtain rfl : ts = ts' := Option.some.inj hl
      unfold Toolset.GetActiveTools
      rw [if_neg (by rw [hts]; exact Bool.false_ne_true)]

/-- Witness for C10: `tsIssues` added to a registry whose override is
already on. -/
theorem everythingOn_override_not_active_witness :
    tsIssues.GetActiveTools = [] ∧
    (tgAllOn.AddToolset tsIssues).IsEnabled tsIssues.name = true ∧
    (∀ ts', lookupTS (tgAllOn.AddToolset tsIssues).toolsets tsIssues.name = some ts' →
      ts'.GetActiveTools = []) := by
  have h := everythingOn_override_not_active tsIssues tgAllOn tsIssues rfl rfl rfl
  exact h

/-- C5: with `errorOnUnknown = true`, a failing name makes the bulk
enable propagate the not-found error immediately with the registry in
its state at the failing name (so the names after it are not enabled);
with `errorOnUnknown = false`, the loop continues past a failing name
silently, and `enableToolsets(["nonexistent"], false)` returns success
with the registry unchanged (no toolset enabled). -/
theorem enableToolsets_error_policy :
    (∀ (tg : ToolsetGroup) (n : String) (post : List String), n ≠ "all" →
      lookupTS tg.toolsets n = none →
      tg.EnableToolsets (n :: post) true =
        (tg, some (NewToolsetDoesNotExistError n))) ∧
    (∀ (tg : ToolsetGroup) (n : String) (rest : List String), n ≠ "all" →
      lookupTS tg.toolsets n = none →
      ToolsetGroup.enableLoop tg (n :: rest) false =
        ToolsetGroup.enableLoop tg rest false) ∧
    (∀ tg : ToolsetGroup, tg.everythingOn = false →
      lookupTS tg.toolsets "nonexistent" = none →
      tg.EnableToolsets ["nonexistent"] false = (tg, none)) := by
  refine ⟨?_, ?_, ?_⟩
  · intro tg n post hne hl
    unfold ToolsetGroup.EnableToolsets
    rw [enableLoop_cons, if_neg hne, EnableToolset_of_lookup_none tg n hl]
    rfl
  · intro tg n rest hne hl
    rw [enableLoop_cons, if_neg hne, EnableToolset_of_lookup_none tg n hl]
    rfl
  · intro tg he hl
    unfold ToolsetGroup.EnableToolsets
    rw [enableLoop_cons, if_neg (by decide), EnableToolset_of_lookup_none tg _ hl]
    show (if tg.everythingOn then _ else _) = _
    rw [if_neg (by rw [he]; exact Bool.false_ne_true)]

/-- Witness for C5: the unknown name `"bad"` fails fast under the strict
policy, and `["nonexistent"]` under the lenient policy succeeds leaving
`tgIssues` unchanged. -/
theorem enableToolsets_error_policy_witness :
    ToolsetGroup.EnableToolsets tgIssues ["bad", "issues"] true =
      (tgIssues, some (NewToolsetDoesNotExistError "bad")) ∧
    ToolsetGroup.enableLoop tgIssues ["bad"] false =
      ToolsetGroup.enableLoop tgIssues [] false ∧
    ToolsetGroup.EnableToolsets tgIssues ["nonexistent"] false = (tgIssues, none) := by
  refine ⟨?_, ?_, ?_⟩
  · exact enableToolsets_error_policy.1 tgIssues "bad" ["issues"] (by decide) (by decide)
  · exact enableToolsets_error_policy.2.1 tgIssues "bad" [] (by decide) (by decide)
  · exact enableToolsets_error_policy.2.2 tgIssues rfl (by decide)

/-- C6: `IsEnabled` returns true unconditionally once the
`everythingOn` override is set, for every name; otherwise it returns the
named toolset's `enabled` flag, and false — never an error, its return
type is `Bool` — for a name not present in the registry. -/
theorem isEnabled_spec (tg : ToolsetGroup) (name : String) :
    (tg.everythingOn = true → tg.IsEnabled name = true) ∧
    (tg.everythingOn = false → ∀ ts, lookupTS tg.toolsets name = some ts →
      tg.IsEnabled name = ts.enabled) ∧
    (tg.everythingOn = false → lookupTS tg.toolsets name = none →
      tg.IsEnabled name = false) := by
  refine ⟨?_, ?_, ?_⟩
  · intro h
    unfold ToolsetGroup.IsEnabled
    rw [if_pos h]
  · intro h ts hl
    unfold ToolsetGroup.IsEnabled
    rw [if_neg (by rw [h]; exact Bool.false_ne_true), hl]
  · intro h hl
    unfold ToolsetGroup.IsEnabled
    rw [if_neg (by rw [h]; exact Bool.false_ne_true), hl]

/-- Witness for C6: the override registry answers true for an arbitrary
name; without the override, `tgIssues` reports the stored flag for
`"issues"` and false for a missing name. -/
theorem isEnabled_spec_witness :
    ToolsetGroup.IsEnabled tgAllOn "anything" = true ∧
    ToolsetGroup.IsEnabled tgIssues "issues" = tsIssues.enabled ∧
    ToolsetGroup.IsEnabled tgIssues "missing" = false := by
  refine ⟨?_, ?_, ?_⟩
  · exact (isEnabled_spec tgAllOn "anything").1 rfl
  · exact (isEnabled_spec tgIssues "issues").2.1 rfl tsIssues (by decide)
  · exact (isEnabled_spec tgIssues "missing").2.2 rfl (by decide)

/-- C7: `EnableToolset` and `GetToolset` on a name not in the registry
fail with the structured `ToolsetDoesNotExistError`, whose `Is` hook
matches any error of that type regardless of the `Name` field (and never
a nil or other error) — so callers match the kind programmatically, not
by message text; `EnableToolset` on a present name sets the toolset's
`enabled` flag and succeeds (returns no error). -/
theorem toolsetNotFound_spec :
    (∀ (tg : ToolsetGroup) (name : String), lookupTS tg.toolsets name = none →
      tg.EnableToolset name = (tg, some (NewToolsetDoesNotExistError name)) ∧
      tg.GetToolset name = .error (NewToolsetDoesNotExistError name)) ∧
    (∀ n m : String, (⟨n⟩ : ToolsetDoesNotExistError).IsTarget
      (some (.toolsetDoesNotExist ⟨m⟩)) = true) ∧
    (∀ n s : String,
      (⟨n⟩ : ToolsetDoesNotExistError).IsTarget (some (.other s)) = false ∧
      (⟨n⟩ : ToolsetDoesNotExistError).IsTarget none = false) ∧
    (∀ (tg : ToolsetGroup) (name : String) (ts : Toolset),
      lookupTS tg.toolsets name = some ts →
      (tg.EnableToolset name).2 = none ∧
      lookupTS (tg.EnableToolset name).1.toolsets name =
        some { ts with enabled := true }) := by
  refine ⟨?_, ?_, ?_, ?_⟩
  · intro tg name hl
    refine ⟨EnableToolset_of_lookup_none tg name hl, ?_⟩
    unfold ToolsetGroup.GetToolset
    rw [hl]
  · intro n m
    rfl
  · intro n s
    exact ⟨rfl, rfl⟩
  · intro tg name ts hl
    rw [EnableToolset_of_lookup_some tg name ts hl]
    refine ⟨rfl, ?_⟩
    show lookupTS (mapEnable name tg.toolsets) name = _
    rw [lookupTS_mapEnable_self, hl]
    rfl

/-- Witness for C7 on `tgIssues`: a missing name errors in both
operations, the error kind matches programmatically, and enabling the
present name succeeds. -/
theorem toolsetNotFound_spec_witness :
    ToolsetGroup.EnableToolset tgIssues "bad" =
      (tgIssues, some (NewToolsetDoesNotExistError "bad")) ∧
    ToolsetGroup.GetToolset tgIssues "bad" =
      .error (NewToolsetDoesNotExistError "bad") ∧
    (⟨"bad"⟩ : ToolsetDoesNotExistError).IsTarget
      (some (.toolsetDoesNotExist ⟨"other-name"⟩)) = true ∧
    (ToolsetGroup.EnableToolset tgIssues "issues").2 = none ∧
    lookupTS (ToolsetGroup.EnableToolset tgIssues "issues").1.toolsets "issues" =
      some { tsIssues with enabled := true } := by
  have h1 := toolsetNotFound_spec.1 tgIssues "bad" (by decide)
  have h4 := toolsetNotFound_spec.2.2.2 tgIssues "issues" tsIssues (by decide)
  exact ⟨h1.1, h1.2, toolsetNotFound_spec.2.1 "bad" "other-name", h4.1, h4.2⟩

/-- C4 counterexample: with `errorOnUnknown = true`, the position of
`"all"` is not irrelevant.  On the registry `tgIssues`,
`EnableToolsets ["bad", "all"] true` propagates the not-found error for
`"bad"` before `"all"` is seen — `everythingOn` stays false and no
toolset is enabled — while `EnableToolsets ["all", "bad"] true` succeeds
with the override set and every toolset enabled.  The two sequences thus
have different outcomes and different resulting states. -/
theorem enableToolsets_all_position_counterexample :
    ToolsetGroup.EnableToolsets tgIssues ["bad", "all"] true =
      (tgIssues, some (NewToolsetDoesNotExistError "bad")) ∧
    ToolsetGroup.EnableToolsets tgIssues ["all", "bad"] true =
      ({ toolsets := [("issues", { tsIssues with enabled := true })],
         everythingOn := true, readOnly := false }, none) ∧
    tgIssues.everythingOn = false ∧
    (ToolsetGroup.EnableToolsets tgIssues ["bad", "all"] true ≠
      ToolsetGroup.EnableToolsets tgIssues ["all", "bad"] true) := by
  refine ⟨by decide, by decide, rfl, by decide⟩

/-- C4 corrected: when `errorOnUnknown = false`, `"all"` anywhere in the
sequence sets `everythingOn` and leaves every registered toolset
enabled, and its position is irrelevant — `"all"` first and `"all"` last
produce the identical final state and the identical (success) outcome. -/
theorem enableToolsets_all_amended (tg : ToolsetGroup) (ns : List String) :
    tg.EnableToolsets ("all" :: ns) false = (allEnabledState tg, none) ∧
    tg.EnableToolsets (ns ++ ["all"]) false = (allEnabledState tg, none) ∧
    (allEnabledState tg).everythingOn = true ∧
    (allEnabledState tg).toolsets.all (fun p => p.2.enabled) = true := by
  refine ⟨?_, ?_, rfl, ?_⟩
  · unfold ToolsetGroup.EnableToolsets
    rw [enableLoop_cons, if_pos rfl]
    show (if ({ tg with everythingOn := true } : ToolsetGroup).everythingOn
        then ToolsetGroup.enableAllLoop { tg with everythingOn := true }
          (({ tg with everythingOn := true } : ToolsetGroup).toolsets.map Prod.fst) false
        else ({ tg with everythingOn := true }, none)) = (allEnabledState tg, none)
    rw [if_pos rfl]
    rw [enableAllLoop_spec _ _ _ (fun k hk => mem_keys_lookupTS_isSome _ _ hk)]
    rw [enableIn_keys]
    rfl
  · obtain ⟨tg2, heq, h1, h2, h3⟩ := enableLoop_append_all ns tg
    unfold ToolsetGroup.EnableToolsets
    rw [heq]
    show (if tg2.everythingOn
        then ToolsetGroup.enableAllLoop tg2 (tg2.toolsets.map Prod.fst) false
        else (tg2, none)) = (allEnabledState tg, none)
    rw [if_pos h1]
    rw [enableAllLoop_spec _ _ _ (fun k hk => mem_keys_lookupTS_isSome _ _ hk)]
    rw [enableIn_keys]
    rw [Prod.mk.injEq]
    refine ⟨?_, rfl⟩
    rw [show (allEnabledState tg) =
      ⟨enabledAll tg.toolsets, true, tg.readOnly⟩ from rfl]
    rw [ToolsetGroup.mk.injEq]
    exact ⟨h3, h1, h2⟩
  · simp [allEnabledState, enabledAll, List.all_eq_true]

/-- C8 counterexample: `perPage = 0` is outside `[1,100]`, yet
translation accepts it (the code's lower bound is `perPage < 0`, not
`perPage < 1`): `translate({perPage:0})` succeeds with `first = 0`
instead of being rejected. -/
theorem perPage_zero_accepted :
    CursorPaginationParams.ToGraphQLParams { perPage := 0, after := "" } =
      .ok { first := some 0, after := none } ∧
    ∀ e, CursorPaginationParams.ToGraphQLParams { perPage := 0, after := "" } ≠
      .error e := by
  refine ⟨rfl, ?_⟩
  intro e h
  cases h

/-- C8 corrected: for both pagination forms, a `perPage` value above 100
or below 0 at translation time is rejected with a descriptive error
naming the offending value, never silently clamped; `perPage = 0` is
accepted (yielding `first = 0`).  The offset form delegates to the
cursor form, so both get identical validation. -/
theorem toGraphQLParams_bounds (p : CursorPaginationParams) :
    (p.perPage > 100 →
      p.ToGraphQLParams = .error (exceedsMaximumMessage p.perPage)) ∧
    (p.perPage < 0 →
      p.ToGraphQLParams = .error (cannotBeNegativeMessage p.perPage)) ∧
    (0 ≤ p.perPage → p.perPage ≤ 100 →
      p.ToGraphQLParams =
        .ok { first := some p.perPage,
              after := if p.after = "" then none else some p.after }) ∧
    (∀ q : PaginationParams,
      q.ToGraphQLParams =
        CursorPaginationParams.ToGraphQLParams { perPage := q.perPage, after := q.after }) := by
  refine ⟨?_, ?_, ?_, fun q => rfl⟩
  · intro h
    unfold CursorPaginationParams.ToGraphQLParams
    rw [if_pos h]
  · intro h
    unfold CursorPaginationParams.ToGraphQLParams
    rw [if_neg (by omega), if_pos h]
  · intro h0 h1
    unfold CursorPaginationParams.ToGraphQLParams
    rw [if_neg (by omega), if_neg (by omega)]

/-- Witness for C8: 150 is rejected naming the value, −5 is rejected
naming the value, and 30 with a cursor is accepted unclamped. -/
theorem toGraphQLParams_bounds_witness :
    CursorPaginationParams.ToGraphQLParams { perPage := 150, after := "" } =
      .error (exceedsMaximumMessage 150) ∧
    CursorPaginationParams.ToGraphQLParams { perPage := -5, after := "" } =
      .error (cannotBeNegativeMessage (-5)) ∧
    PaginationParams.ToGraphQLParams { page := 1, perPage := 150, after := "" } =
      .error (exceedsMaximumMessage 150) ∧
    CursorPaginationParams.ToGraphQLParams { perPage := 30, after := "abc" } =
      .ok { first := some 30, after := some "abc" } := by
  refine ⟨?_, ?_, ?_, ?_⟩
  · exact (toGraphQLParams_bounds ⟨150, ""⟩).1 (by decide)
  · exact (toGraphQLParams_bounds ⟨-5, ""⟩).2.1 (by decide)
  · rw [(toGraphQLParams_bounds ⟨150, ""⟩).2.2.2 ⟨1, 150, ""⟩]
    exact (toGraphQLParams_bounds ⟨150, ""⟩).1 (by decide)
  · exact (toGraphQLParams_bounds ⟨30, "abc"⟩).2.2.1 (by decide) (by decide)

/-- C9 counterexample: the offset-style form carries an `after` field
and the translation passes it through — it is not unconditionally
absent: `translate({page:1, perPage:30, after:"abc"})` yields
`after = "abc"`, not absent. -/
theorem offset_translation_counterexample :
    PaginationParams.ToGraphQLParams { page := 1, perPage := 30, after := "abc" } =
      .ok { first := some 30, after := some "abc" } ∧
    (some "abc" : Option String) ≠ none := by
  exact ⟨rfl, by decide⟩

/-- C9 corrected: for every in-bounds request, the cursor form
translates to `first = perPage` with `after` passed through verbatim,
absent exactly when the input string is empty; the offset form behaves
identically on its carried `after` field, and in particular a cursorless
offset request (`after = ""`, e.g. `{page:1, perPage:30}`) yields
`{first:30, after: absent}`. -/
theorem toGraphQLParams_translation (p : CursorPaginationParams)
    (q : PaginationParams) (hp0 : 0 ≤ p.perPage) (hp1 : p.perPage ≤ 100)
    (hq0 : 0 ≤ q.perPage) (hq1 : q.perPage ≤ 100) :
    p.ToGraphQLParams =
      .ok { first := some p.perPage,
            after := if p.after = "" then none else some p.after } ∧
    q.ToGraphQLParams =
      .ok { first := some q.perPage,
            after := if q.after = "" then none else some q.after } ∧
    (q.after = "" →
      q.ToGraphQLParams = .ok { first := some q.perPage, after := none }) := by
  have hc : ∀ r : CursorPaginationParams, 0 ≤ r.perPage → r.perPage ≤ 100 →
      r.ToGraphQLParams =
        .ok { first := some r.perPage,
              after := if r.after = "" then none else some r.after } := by
    intro r h0 h1
    unfold CursorPaginationParams.ToGraphQLParams
    rw [if_neg (by omega), if_neg (by omega)]
  refine ⟨hc p hp0 hp1, hc ⟨q.perPage, q.after⟩ hq0 hq1, ?_⟩
  intro hqa
  have := hc ⟨q.perPage, q.after⟩ hq0 hq1
  rw [show PaginationParams.ToGraphQLParams q =
    CursorPaginationParams.ToGraphQLParams ⟨q.perPage, q.after⟩ from rfl, this, hqa]
  rfl

/-- Witness for C9: the cursor request `{perPage:30, after:"abc"}` keeps
its cursor; the offset request `{page:1, perPage:30}` (empty cursor)
translates with `after` absent. -/
theorem toGraphQLParams_translation_witness :
    CursorPaginationParams.ToGraphQLParams { perPage := 30, after := "abc" } =
      .ok { first := some 30, after := some "abc" } ∧
    PaginationParams.ToGraphQLParams { page := 1, perPage := 30, after := "" } =
      .ok { first := some 30, after := none } := by
  have h := toGraphQLParams_translation ⟨30, "abc"⟩ ⟨1, 30, ""⟩
    (by decide) (by decide) (by decide) (by decide)
  exact ⟨h.1, h.2.2 rfl⟩

end GithubMcp
